import Mathlib

/-!
Verification of the blackjack-network repository: a shallow embedding of
its wire codec (protocol), server game logic, and client scoring
pipeline, together with theorems settling the specification's claims.

Byte strings are modelled as `List Nat` with each element in 0..255;
text fields (names) are modelled by their UTF-8 byte sequences (the
UTF-8 encode/decode pair is a bijection on valid text, so it is elided).
-/

namespace Protocol

/-- Shared magic marker present in every protocol message. -/
def MAGIC_COOKIE : Nat := 0xabcddcba

def MTYPE_OFFER : Nat := 0x2
def MTYPE_REQUEST : Nat := 0x3
def MTYPE_PAYLOAD : Nat := 0x4

def GAME_RESULT_NOTOVER : Nat := 0x0
def GAME_RESULT_TIE : Nat := 0x1
def GAME_RESULT_LOSS : Nat := 0x2
def GAME_RESULT_WIN : Nat := 0x3

/-- Fixed length of the name field, in bytes. -/
def NAME_LEN : Nat := 32

/-- Errors raised by the encode functions: `InvalidArgument` models the
explicit `ValueError` checks in `pack_request` / `pack_client_payload`;
`StructError` models the range errors of the underlying fixed-width
packing routine (a field value that does not fit its declared width). -/
inductive PackError where
  | InvalidArgument
  | StructError
deriving DecidableEq, Repr

/-- Big-endian 4-byte encoding (format character `I`). -/
def u32be (n : Nat) : List Nat :=
  [n / 2 ^ 24 % 256, n / 2 ^ 16 % 256, n / 2 ^ 8 % 256, n % 256]

/-- Big-endian 2-byte encoding (format character `H`). -/
def u16be (n : Nat) : List Nat :=
  [n / 2 ^ 8 % 256, n % 256]

/-- Big-endian read of a byte sequence. -/
def rdBE (bs : List Nat) : Nat :=
  bs.foldl (fun a b => a * 256 + b) 0

/-- `pack_name`: truncate the name's byte sequence to 32 bytes, then pad
with zero bytes up to exactly 32 bytes. -/
def pack_name (name : List Nat) : List Nat :=
  let bytes_name := name.take NAME_LEN
  bytes_name ++ List.replicate (NAME_LEN - bytes_name.length) 0

/-- `unpack_name`: keep the bytes before the first zero byte
(`split(b"\x00")[0]`). -/
def unpack_name (bytes_name : List Nat) : List Nat :=
  bytes_name.takeWhile (fun b => b ≠ 0)

/-- `pack_offer`: cookie(4) + type=OFFER(1) + port(2) + name(32) = 39 bytes.
The 2-byte port field rejects values that do not fit. -/
def pack_offer (tcp_port : Nat) (server_name : List Nat) : Except PackError (List Nat) :=
  if tcp_port < 2 ^ 16 then
    .ok (u32be MAGIC_COOKIE ++ [MTYPE_OFFER] ++ u16be tcp_port ++ pack_name server_name)
  else .error .StructError

/-- `unpack_offer`: requires exactly 39 bytes, returns
(cookie, type, port, name). -/
def unpack_offer (data : List Nat) : Option (Nat × Nat × Nat × List Nat) :=
  match data with
  | b0 :: b1 :: b2 :: b3 :: t :: p0 :: p1 :: rest =>
    if rest.length = NAME_LEN then
      some (rdBE [b0, b1, b2, b3], t, rdBE [p0, p1], unpack_name rest)
    else none
  | _ => none

/-- `pack_request`: cookie(4) + type=REQUEST(1) + rounds(1) + name(32) =
38 bytes; raises `InvalidArgument` unless 0 ≤ rounds ≤ 255. -/
def pack_request (rounds : Int) (client_name : List Nat) : Except PackError (List Nat) :=
  if 0 ≤ rounds ∧ rounds ≤ 255 then
    .ok (u32be MAGIC_COOKIE ++ [MTYPE_REQUEST] ++ [rounds.toNat] ++ pack_name client_name)
  else .error .InvalidArgument

/-- `unpack_request`: requires exactly 38 bytes, returns
(cookie, type, rounds, name). -/
def unpack_request (data : List Nat) : Option (Nat × Nat × Nat × List Nat) :=
  match data with
  | b0 :: b1 :: b2 :: b3 :: t :: r :: rest =>
    if rest.length = NAME_LEN then
      some (rdBE [b0, b1, b2, b3], t, r, unpack_name rest)
    else none
  | _ => none

/-- ASCII decode: fails on any byte ≥ 128 (`decode("ascii")`). -/
def asciiDecode (bs : List Nat) : Option String :=
  if bs.all (fun b => b < 128) then some (String.mk (bs.map Char.ofNat)) else none

/-- ASCII encode of a string to its byte sequence. -/
def asciiEncode (s : String) : List Nat :=
  s.data.map Char.toNat

/-- Fixed 5-byte field (format `5s`): truncate to 5 bytes, pad with
zero bytes. -/
def pack5s (bs : List Nat) : List Nat :=
  bs.take 5 ++ List.replicate (5 - (bs.take 5).length) 0

/-- `pack_client_payload`: cookie(4) + type=PAYLOAD(1) + decision(5) =
10 bytes; raises `InvalidArgument` unless the decision is "Hittt" or
"Stand". -/
def pack_client_payload (decision : String) : Except PackError (List Nat) :=
  if decision = "Hittt" ∨ decision = "Stand" then
    .ok (u32be MAGIC_COOKIE ++ [MTYPE_PAYLOAD] ++ pack5s (asciiEncode decision))
  else .error .InvalidArgument

/-- `unpack_client_payload`: requires exactly 10 bytes, returns
(cookie, type, decision) with the 5 payload bytes ASCII-decoded. -/
def unpack_client_payload (data : List Nat) : Option (Nat × Nat × String) :=
  match data with
  | b0 :: b1 :: b2 :: b3 :: t :: rest =>
    if rest.length = 5 then
      (asciiDecode rest).map (fun s => (rdBE [b0, b1, b2, b3], t, s))
    else none
  | _ => none

/-- `pack_server_payload`: cookie(4) + type=PAYLOAD(1) + result(1) +
rank(2) + suit(1) = 9 bytes; the 1- and 2-byte fields reject values that
do not fit. -/
def pack_server_payload (game_result card_rank card_suit : Nat) : Except PackError (List Nat) :=
  if game_result < 256 ∧ card_rank < 2 ^ 16 ∧ card_suit < 256 then
    .ok (u32be MAGIC_COOKIE ++ [MTYPE_PAYLOAD] ++ [game_result] ++ u16be card_rank ++ [card_suit])
  else .error .StructError

/-- `unpack_server_payload`: requires exactly 9 bytes, returns
(cookie, type, result, rank, suit). -/
def unpack_server_payload (data : List Nat) : Option (Nat × Nat × Nat × Nat × Nat) :=
  match data with
  | [b0, b1, b2, b3, t, g, r0, r1, s] =>
    some (rdBE [b0, b1, b2, b3], t, g, rdBE [r0, r1], s)
  | _ => none

end Protocol

namespace Server

open Protocol

/-- A card is an immutable (rank, suit) pair: rank 1..13, suit 0..3. -/
abbrev Card := Nat × Nat

/-- Errors of the game/session layer: `DeckExhausted` models popping an
empty deck, `ProtocolError` an invalid decision token from the client,
`ConnectionClosed` a socket closed mid-read, and `NoInput` marks a run
of the model that exhausts its supplied decision trace (the real server
would block waiting for the client at that point). -/
inductive GameErr where
  | DeckExhausted
  | ProtocolError
  | ConnectionClosed
  | NoInput
deriving DecidableEq, Repr

/-- `recv_exact` loop body: keep calling `recv` with the number of bytes
still missing, append each returned chunk, and fail if the socket closes
(recv returns the empty byte string) before `n` bytes accumulate. The
socket is modelled as the queue of byte chunks the kernel will deliver:
each `recv k` call delivers up to `k` bytes from the head chunk, the
rest of the head chunk stays buffered; an exhausted queue means the peer
closed the connection. This embeds the identical `recv_exact` functions
of server.py and client.py. -/
def recv_exact_go (n : Nat) (data : List Nat) (chunks : List (List Nat)) :
    Except GameErr (List Nat) :=
  if h : data.length < n then
    match chunks with
    | [] => .error .ConnectionClosed
    | c :: rest =>
      if hc : c = [] then .error .ConnectionClosed
      else
        let chunk := c.take (n - data.length)
        let left := c.drop (n - data.length)
        recv_exact_go n (data ++ chunk) (if left = [] then rest else left :: rest)
  else .ok data
termination_by (chunks.map List.length).sum
decreasing_by
  simp only [List.map_cons, List.sum_cons]
  split
  · have : 0 < c.length := List.length_pos.mpr hc
    omega
  · simp only [List.map_cons, List.sum_cons, List.length_drop]
    have : 0 < c.length := List.length_pos.mpr hc
    omega

/-- `recv_exact sock n`: receive exactly `n` bytes. -/
def recv_exact (chunks : List (List Nat)) (n : Nat) : Except GameErr (List Nat) :=
  recv_exact_go n [] chunks

/-- `create_deck`: all 52 (rank, suit) pairs, suits 0..3 outer, ranks
1..13 inner. -/
def create_deck : List Card :=
  (List.range 4).flatMap (fun card_suit =>
    (List.range' 1 13).map (fun card_rank => (card_rank, card_suit)))

/-- `deck.pop()`: remove and return the last card; an empty deck raises
(`DeckExhausted` in the spec's taxonomy). -/
def draw (deck : List Card) : Except GameErr (Card × List Card) :=
  match deck.getLast? with
  | some c => .ok (c, deck.dropLast)
  | none => .error .DeckExhausted

/-- `rank_value`: 10 for rank ≥ 11, 11 for rank 1 (Ace, always high),
else the rank itself. -/
def rank_value (rank : Nat) : Nat :=
  if rank ≥ 11 then 10
  else if rank = 1 then 11
  else rank

/-- `hand_total`: running sum of `rank_value` over the hand's cards. -/
def hand_total (hand : List Card) : Nat :=
  hand.foldl (fun total c => total + rank_value c.1) 0

/-- `initial_deal`: draw 2 player cards, then the dealer's upcard, then
the dealer's hidden card; returns (player hand, dealer visible hand,
hidden card, remaining deck). -/
def initial_deal (deck : List Card) :
    Except GameErr (List Card × List Card × Card × List Card) := do
  let (p1, deck) ← draw deck
  let (p2, deck) ← draw deck
  let (dealer_first_card, deck) ← draw deck
  let (dealer_hidden, deck) ← draw deck
  return ([p1, p2], [dealer_first_card], dealer_hidden, deck)

/-- `player_turn` loop: if the player's total exceeds 21 the player is
busted; otherwise consume the next client decision — "Hittt" draws a
card and repeats, "Stand" ends the turn not busted, anything else is a
protocol error. Returns (busted, remaining deck, player hand, remaining
decisions). -/
def player_turn_loop (deck player_hand : List Card) (decisions : List String) :
    Except GameErr (Bool × List Card × List Card × List String) :=
  if hand_total player_hand > 21 then .ok (true, deck, player_hand, decisions)
  else
    match decisions with
    | [] => .error .NoInput
    | decision :: rest =>
      if decision = "Hittt" then
        match deck.getLast? with
        | none => .error .DeckExhausted
        | some new_card =>
          player_turn_loop deck.dropLast (player_hand ++ [new_card]) rest
      else if decision = "Stand" then .ok (false, deck, player_hand, rest)
      else .error .ProtocolError
termination_by decisions.length
decreasing_by simp

/-- `dealer_turn` draw loop: if the dealer's total exceeds 21 the dealer
is busted; if it is at least 17 the dealer stands; otherwise draw the
deck's last card, append it, and repeat. Returns (busted, dealer hand,
remaining deck). -/
def dealer_draw_loop (deck dealer_hand : List Card) :
    Except GameErr (Bool × List Card × List Card) :=
  if hand_total dealer_hand > 21 then .ok (true, dealer_hand, deck)
  else if hand_total dealer_hand ≥ 17 then .ok (false, dealer_hand, deck)
  else
    match h : deck.getLast? with
    | none => .error .DeckExhausted
    | some new_card => dealer_draw_loop deck.dropLast (dealer_hand ++ [new_card])
termination_by deck.length
decreasing_by
  have : deck ≠ [] := by intro he; rw [he] at h; simp at h
  have : 0 < deck.length := List.length_pos.mpr this
  simp [List.length_dropLast]; omega

/-- `dealer_turn`: reveal the hidden card (append it to the dealer hand)
then run the draw loop. -/
def dealer_turn (deck dealer_hand : List Card) (dealer_hidden : Card) :
    Except GameErr (Bool × List Card × List Card) :=
  dealer_draw_loop deck (dealer_hand ++ [dealer_hidden])

/-- `who_won`: player busted ⇒ LOSS; else dealer busted ⇒ WIN; else
compare totals (player higher ⇒ WIN, lower ⇒ LOSS, equal ⇒ TIE). -/
def who_won (player_hand dealer_hand : List Card)
    (player_busted dealer_busted : Bool) : Nat :=
  if player_busted then GAME_RESULT_LOSS
  else if dealer_busted then GAME_RESULT_WIN
  else
    let player_score := hand_total player_hand
    let dealer_score := hand_total dealer_hand
    if player_score > dealer_score then GAME_RESULT_WIN
    else if player_score < dealer_score then GAME_RESULT_LOSS
    else GAME_RESULT_TIE

/-- Observable outcome of one round. -/
structure RoundOutcome where
  player_busted : Bool
  dealer_busted : Bool
  player_hand : List Card
  dealer_hand : List Card
  result : Nat
deriving DecidableEq, Repr

/-- One round of `run_match_for_client`, given the shuffled deck and the
trace of client decisions: initial deal; if the player's initial total
already exceeds 21, skip both turns and treat as player-busted with
dealer not busted; otherwise run the player turn and, if the player did
not bust, the dealer turn; finally decide the winner. -/
def run_round (deck : List Card) (decisions : List String) :
    Except GameErr RoundOutcome := do
  let (player_hand, dealer_hand, dealer_hidden, deck) ← initial_deal deck
  if hand_total player_hand > 21 then
    return ⟨true, false, player_hand, dealer_hand,
            who_won player_hand dealer_hand true false⟩
  else
    let (player_busted, deck, player_hand, _) ←
      player_turn_loop deck player_hand decisions
    if player_busted then
      return ⟨true, false, player_hand, dealer_hand,
              who_won player_hand dealer_hand true false⟩
    else
      let (dealer_busted, dealer_hand, _) ←
        dealer_turn deck dealer_hand dealer_hidden
      return ⟨false, dealer_busted, player_hand, dealer_hand,
              who_won player_hand dealer_hand false dealer_busted⟩

end Server

namespace Client

/-- Client-side `rank_value` (textually identical to the server's). -/
def rank_value (rank : Nat) : Nat :=
  if rank ≥ 11 then 10
  else if rank = 1 then 11
  else rank

/-- Client-side `hand_total`: the client stores each card's point value
in `player_ranks` as the card arrives and totals with `sum(ranks)`. -/
def hand_total (ranks : List Nat) : Nat :=
  ranks.sum

/-- The client's `player_ranks` accumulation: map each received card's
rank through `rank_value` in arrival order. -/
def player_ranks (cards : List (Nat × Nat)) : List Nat :=
  cards.map (fun c => rank_value c.1)

end Client

namespace Server

lemma foldl_rank_value (l : List Card) :
    ∀ a : Nat, l.foldl (fun total c => total + rank_value c.1) a
      = a + (l.map (fun c => rank_value c.1)).sum := by
  induction l with
  | nil => intro a; simp
  | cons x xs ih => intro a; simp [List.foldl_cons, ih]; omega

lemma hand_total_eq_sum (hand : List Card) :
    hand_total hand = (hand.map (fun c => rank_value c.1)).sum := by
  simpa using foldl_rank_value hand 0

/-- C2: `rank_value` maps rank 1 to 11, ranks 11–13 to 10, and ranks
2–10 to themselves; `hand_total` is the plain sum of `rank_value` over
the hand's cards (no dynamic low-Ace adjustment). -/
theorem rank_value_spec :
    rank_value 1 = 11 ∧
    (∀ r, 11 ≤ r → r ≤ 13 → rank_value r = 10) ∧
    (∀ r, 2 ≤ r → r ≤ 10 → rank_value r = r) ∧
    (∀ hand, hand_total hand = (hand.map (fun c => rank_value c.1)).sum) := by
  refine ⟨rfl, ?_, ?_, hand_total_eq_sum⟩
  · intro r h1 _; unfold rank_value; rw [if_pos (by omega)]
  · intro r h1 h2; unfold rank_value
    rw [if_neg (by omega), if_neg (by omega)]

/-- C2 witness: concrete evaluations discharging the hypotheses. -/
theorem rank_value_spec_witness :
    rank_value 13 = 10 ∧ rank_value 7 = 7 := by
  exact ⟨rank_value_spec.2.1 13 (by decide) (by decide),
         rank_value_spec.2.2.1 7 (by decide) (by decide)⟩

/-- C3: `who_won` returns LOSS if the player busted, else WIN if the
dealer busted, else compares totals: strictly greater ⇒ WIN, strictly
smaller ⇒ LOSS, equal ⇒ TIE. -/
theorem who_won_spec :
    ∀ (player_hand dealer_hand : List Card) (player_busted dealer_busted : Bool),
      who_won player_hand dealer_hand player_busted dealer_busted =
        if player_busted then Protocol.GAME_RESULT_LOSS
        else if dealer_busted then Protocol.GAME_RESULT_WIN
        else if hand_total dealer_hand < hand_total player_hand then
          Protocol.GAME_RESULT_WIN
        else if hand_total player_hand < hand_total dealer_hand then
          Protocol.GAME_RESULT_LOSS
        else Protocol.GAME_RESULT_TIE := by
  intro player_hand dealer_hand player_busted dealer_busted
  rfl

lemma draw_concat (l : List Card) (c : Card) : draw (l ++ [c]) = .ok (c, l) := by
  simp [draw, List.getLast?_concat, List.dropLast_concat]

lemma recv_exact_go_ok_length (n : Nat) (data : List Nat) (chunks : List (List Nat)) :
    ∀ d, data.length ≤ n → recv_exact_go n data chunks = .ok d → d.length = n := by
  induction data, chunks using recv_exact_go.induct (n := n) with
  | case1 data h => intro d _ hok; rw [recv_exact_go] at hok; simp [h] at hok
  | case2 data h rest =>
      intro d _ hok; rw [recv_exact_go] at hok; simp [h] at hok
  | case3 data h c rest hc chunk left ih =>
      intro d hle hok
      rw [recv_exact_go] at hok
      simp only [dif_pos h, dif_neg hc] at hok
      refine ih d ?_ hok
      have hch : chunk.length ≤ n - data.length := by
        rw [show chunk = c.take (n - data.length) from rfl]
        simp [List.length_take]
      simp only [List.length_append]
      omega
  | case4 data chunks h =>
      intro d hle hok
      rw [recv_exact_go.eq_def] at hok
      simp [h] at hok
      subst hok; omega

lemma recv_exact_go_err_cc (n : Nat) (data : List Nat) (chunks : List (List Nat)) :
    ∀ e, recv_exact_go n data chunks = .error e → e = .ConnectionClosed := by
  induction data, chunks using recv_exact_go.induct (n := n) with
  | case1 data h =>
      intro e he; rw [recv_exact_go] at he
      simp only [dif_pos h, Except.error.injEq] at he
      exact he.symm
  | case2 data h rest =>
      intro e he; rw [recv_exact_go] at he
      simp [h] at he
      exact he.symm
  | case3 data h c rest hc chunk left ih =>
      intro e he
      rw [recv_exact_go] at he
      simp only [dif_pos h, dif_neg hc] at he
      exact ih e he
  | case4 data chunks h =>
      intro e he; rw [recv_exact_go.eq_def] at he
      simp [h] at he

lemma recv_exact_go_content (n : Nat) (data : List Nat) (chunks : List (List Nat)) :
    ∀ d, recv_exact_go n data chunks = .ok d →
      d = data ++ chunks.flatten.take (n - data.length) := by
  induction data, chunks using recv_exact_go.induct (n := n) with
  | case1 data h => intro d hok; rw [recv_exact_go] at hok; simp [h] at hok
  | case2 data h rest => intro d hok; rw [recv_exact_go] at hok; simp [h] at hok
  | case3 data h c rest hc chunk left ih =>
      intro d hok
      rw [recv_exact_go] at hok
      simp only [dif_pos h, dif_neg hc] at hok
      have hd := ih d hok
      simp only [dite_eq_ite] at hd
      have hch : chunk = c.take (n - data.length) := rfl
      have hlf : left = c.drop (n - data.length) := rfl
      rw [hd]
      by_cases hdone : left = []
      · have hcl : c.length ≤ n - data.length := by
          by_contra hg
          push_neg at hg
          rw [hlf] at hdone
          have := congrArg List.length hdone
          simp [List.length_drop] at this
          omega
        have hck : chunk = c := by rw [hch]; exact List.take_of_length_le hcl
        rw [if_pos hdone, hck]
        simp only [List.flatten_cons, List.take_append_eq_append_take,
          List.take_of_length_le hcl, List.length_append, List.append_assoc]
        congr 2
        congr 1
        omega
      · have hcl : n - data.length < c.length := by
          by_contra hg
          push_neg at hg
          exact hdone (by rw [hlf]; exact List.drop_eq_nil_of_le hg)
        rw [if_neg hdone]
        have hlen : (data ++ chunk).length = n := by
          rw [hch]; simp [List.length_take]; omega
        rw [hlen, Nat.sub_self, List.take_zero, List.append_nil]
        simp only [List.flatten_cons, List.take_append_eq_append_take]
        have hz : n - data.length - c.length = 0 := by omega
        rw [hz, List.take_zero, List.append_nil]
  | case4 data chunks h =>
      intro d hok; rw [recv_exact_go.eq_def] at hok
      simp [h] at hok
      subst hok
      simp [Nat.sub_eq_zero_of_le (Nat.le_of_not_lt h)]

lemma recv_exact_go_closed (n : Nat) (data : List Nat) (chunks : List (List Nat)) :
    data.length + (chunks.map List.length).sum < n →
      recv_exact_go n data chunks = .error .ConnectionClosed := by
  induction data, chunks using recv_exact_go.induct (n := n) with
  | case1 data h => intro hlt; rw [recv_exact_go]; simp [h]
  | case2 data h rest => intro hlt; rw [recv_exact_go]; simp [h]
  | case3 data h c rest hc chunk left ih =>
      intro hlt
      rw [recv_exact_go]
      simp only [dif_pos h, dif_neg hc]
      apply ih
      simp only [dite_eq_ite]
      have hch : chunk.length = min (n - data.length) c.length := by
        rw [show chunk = c.take (n - data.length) from rfl]
        simp [List.length_take]
      have hlf : left.length = c.length - (n - data.length) := by
        rw [show left = c.drop (n - data.length) from rfl]
        simp [List.length_drop]
      by_cases hdone : left = []
      · rw [if_pos hdone]
        have h0 : left.length = 0 := by simp [hdone]
        simp only [List.map_cons, List.sum_cons] at hlt
        simp only [List.length_append]
        omega
      · rw [if_neg hdone]
        simp only [List.map_cons, List.sum_cons] at hlt ⊢
        simp only [List.length_append]
        omega
  | case4 data chunks h =>
      intro hlt
      exfalso
      omega

/-- C9: `recv_exact` either returns exactly the `n` requested bytes —
the first `n` bytes of the stream, gathered by retrying over partial
reads — or fails with `ConnectionClosed` when the stream closes before
`n` bytes arrive; it never returns a short byte sequence, and
`ConnectionClosed` is its only failure. Quantified over every requested
length and every delivery schedule. -/
theorem recv_exact_spec :
    (∀ (chunks : List (List Nat)) (n : Nat) (d : List Nat),
        recv_exact chunks n = .ok d → d.length = n ∧ d = chunks.flatten.take n) ∧
    (∀ (chunks : List (List Nat)) (n : Nat) (e : GameErr),
        recv_exact chunks n = .error e → e = .ConnectionClosed) ∧
    (∀ (chunks : List (List Nat)) (n : Nat),
        (chunks.map List.length).sum < n →
        recv_exact chunks n = .error .ConnectionClosed) := by
  refine ⟨?_, ?_, ?_⟩
  · intro chunks n d hok
    refine ⟨recv_exact_go_ok_length n [] chunks d (by simp) hok, ?_⟩
    have h2 := recv_exact_go_content n [] chunks d hok
    simpa using h2
  · intro chunks n e he
    exact recv_exact_go_err_cc n [] chunks e he
  · intro chunks n hlt
    exact recv_exact_go_closed n [] chunks (by simpa using hlt)

/-- C9 witness: a 3-byte read spread over two partial deliveries returns
exactly 3 bytes, and a stream closing after 1 byte of a 5-byte read
fails with ConnectionClosed. -/
theorem recv_exact_spec_witness :
    (([1, 2, 3] : List Nat).length = 3 ∧
      ([1, 2, 3] : List Nat) = [[1, 2], [3, 4]].flatten.take 3) ∧
    recv_exact [[(1 : Nat)]] 5 = .error .ConnectionClosed := by
  constructor
  · exact recv_exact_spec.1 [[1, 2], [3, 4]] 3 [1, 2, 3]
      (by simp [recv_exact, recv_exact_go])
  · exact recv_exact_spec.2.2 [[(1 : Nat)]] 5 (by simp)

/-- C7: `create_deck` yields exactly 52 pairwise-distinct cards covering
every rank 1–13 and suit 0–3; `draw` removes and returns exactly the
last card, shrinking the deck by one; drawing from an empty deck fails
with `DeckExhausted`. -/
theorem deck_draw_spec :
    create_deck.length = 52 ∧
    create_deck.Nodup ∧
    (∀ r s : Nat, ((r, s) ∈ create_deck ↔ 1 ≤ r ∧ r ≤ 13 ∧ s < 4)) ∧
    (∀ (deck : List Card) (c : Card), draw (deck ++ [c]) = .ok (c, deck)) ∧
    (∀ (deck rest : List Card) (c : Card),
        draw deck = .ok (c, rest) → rest.length + 1 = deck.length) ∧
    draw ([] : List Card) = .error .DeckExhausted := by
  refine ⟨by decide, by decide, ?_, ?_, ?_, rfl⟩
  · intro r s
    simp only [create_deck, List.mem_flatMap, List.mem_map, List.mem_range,
      List.mem_range'_1, Prod.mk.injEq]
    constructor
    · rintro ⟨s', hs', r', hr', heq1, heq2⟩
      subst heq1; subst heq2; omega
    · rintro ⟨h1, h2, h3⟩
      exact ⟨s, h3, r, by omega, rfl, rfl⟩
  · intro deck c
    exact draw_concat deck c
  · intro deck rest c h
    cases deck with
    | nil => simp [draw] at h
    | cons d ds =>
      simp only [draw] at h
      cases hg : (d :: ds).getLast? with
      | none => simp at hg
      | some x =>
        rw [hg] at h
        simp only [Except.ok.injEq, Prod.mk.injEq] at h
        obtain ⟨-, h2⟩ := h
        subst h2
        simp [List.length_dropLast]

/-- C7 witness: drawing from a concrete two-card deck returns the last
card and the one-card remainder. -/
theorem deck_draw_spec_witness :
    draw [((5 : Nat), (2 : Nat)), (7, 1)] = .ok ((7, 1), [(5, 2)]) ∧
    ([((5 : Nat), (2 : Nat))].length + 1 = [((5 : Nat), (2 : Nat)), (7, 1)].length) := by
  refine ⟨deck_draw_spec.2.2.2.1 [(5, 2)] (7, 1), ?_⟩
  exact deck_draw_spec.2.2.2.2.1 [(5, 2), (7, 1)] [(5, 2)] (7, 1)
    (deck_draw_spec.2.2.2.1 [(5, 2)] (7, 1))

/-- C4: the dealer turn first appends the hidden card to the dealer
hand, then loops: a total above 21 busts and stops; a total of at least
17 stands (not busted) without drawing; a total below 17 draws exactly
one card (the deck's last) and repeats; a non-drawing exit never touches
the deck. In particular a dealer at 16 draws again and a dealer at 17
stops, regardless of hand composition. -/
theorem dealer_turn_spec :
    (∀ (deck dealer_hand : List Card) (dealer_hidden : Card),
        dealer_turn deck dealer_hand dealer_hidden =
          dealer_draw_loop deck (dealer_hand ++ [dealer_hidden])) ∧
    (∀ deck hand, 21 < hand_total hand →
        dealer_draw_loop deck hand = .ok (true, hand, deck)) ∧
    (∀ deck hand, hand_total hand ≤ 21 → 17 ≤ hand_total hand →
        dealer_draw_loop deck hand = .ok (false, hand, deck)) ∧
    (∀ (deck : List Card) (c : Card) (hand : List Card), hand_total hand < 17 →
        dealer_draw_loop (deck ++ [c]) hand = dealer_draw_loop deck (hand ++ [c])) ∧
    (∀ hand, hand_total hand < 17 →
        dealer_draw_loop [] hand = .error .DeckExhausted) := by
  refine ⟨fun _ _ _ => rfl, ?_, ?_, ?_, ?_⟩
  · intro deck hand h
    rw [dealer_draw_loop]; rw [if_pos h]
  · intro deck hand h1 h2
    rw [dealer_draw_loop]; rw [if_neg (by omega), if_pos h2]
  · intro deck c hand h
    conv_lhs => rw [dealer_draw_loop]
    rw [if_neg (by omega), if_neg (by omega)]
    split
    · next heq => rw [List.getLast?_concat] at heq; exact absurd heq (by simp)
    · next nc heq =>
        rw [List.getLast?_concat] at heq
        obtain rfl : c = nc := by injection heq
        simp [List.dropLast_concat]
  · intro hand h
    rw [dealer_draw_loop]
    rw [if_neg (by omega), if_neg (by omega)]
    split
    · rfl
    · next nc heq => simp at heq

/-- C4 witness: a dealer at 16 draws the deck's last card and repeats; a
dealer at 17 stands without drawing; a dealer above 21 is busted. -/
theorem dealer_turn_spec_witness :
    dealer_draw_loop ([] ++ [((5 : Nat), (2 : Nat))]) [(9, 0), (7, 1)] =
      dealer_draw_loop [] ([((9 : Nat), (0 : Nat)), (7, 1)] ++ [(5, 2)]) ∧
    dealer_draw_loop [((5 : Nat), (2 : Nat))] [(9, 0), (8, 1)] =
      .ok (false, [(9, 0), (8, 1)], [(5, 2)]) ∧
    dealer_draw_loop [] [((10 : Nat), (0 : Nat)), (10, 1), (2, 2)] =
      .ok (true, [(10, 0), (10, 1), (2, 2)], []) := by
  refine ⟨dealer_turn_spec.2.2.2.1 [] (5, 2) [(9, 0), (7, 1)] (by decide), ?_, ?_⟩
  · exact dealer_turn_spec.2.2.1 [(5, 2)] [(9, 0), (8, 1)] (by decide) (by decide)
  · exact dealer_turn_spec.2.1 [] [(10, 0), (10, 1), (2, 2)] (by decide)

/-- C5: when the player's two initial cards already total more than 21,
the round skips the player and dealer turns entirely: the outcome is
player-busted, dealer not busted, result LOSS, with the dealer hand
still holding only the upcard and the decision trace unread. -/
theorem prebust_round_spec :
    ∀ (rest : List Card) (hidden up p2 p1 : Card) (decisions : List String),
      21 < hand_total [p1, p2] →
      run_round (rest ++ [hidden, up, p2, p1]) decisions =
        .ok ⟨true, false, [p1, p2], [up], Protocol.GAME_RESULT_LOSS⟩ := by
  intro rest hidden up p2 p1 decisions h
  have e : rest ++ [hidden, up, p2, p1] =
      (((rest ++ [hidden]) ++ [up]) ++ [p2]) ++ [p1] := by simp
  rw [e]
  simp only [run_round, initial_deal, draw_concat, bind, Except.bind, pure, Except.pure]
  rw [if_pos h]
  simp [who_won]

/-- C5 witness: a concrete deck dealing the player two Aces produces a
pre-turn bust and outcome LOSS with no decisions consumed. -/
theorem prebust_round_spec_witness :
    run_round [((2 : Nat), (0 : Nat)), (3, 1), (1, 2), (1, 3)] ["Hittt"] =
      .ok ⟨true, false, [(1, 3), (1, 2)], [(3, 1)], Protocol.GAME_RESULT_LOSS⟩ := by
  simpa using prebust_round_spec [] (2, 0) (3, 1) (1, 2) (1, 3) ["Hittt"] (by decide)

end Server

namespace Protocol

/-- C6: `pack_request` fails with `InvalidArgument` exactly when the
round count is outside 0–255; `pack_client_payload` fails with
`InvalidArgument` exactly when the decision is neither "Hittt" nor
"Stand"; `pack_name` never fails: it always yields exactly 32 bytes,
truncating longer names at exactly 32 bytes and zero-padding shorter
ones. -/
theorem encode_failure_spec :
    (∀ (rounds : Int) (client_name : List Nat),
        pack_request rounds client_name = .error .InvalidArgument ↔
          ¬(0 ≤ rounds ∧ rounds ≤ 255)) ∧
    (∀ decision : String,
        pack_client_payload decision = .error .InvalidArgument ↔
          ¬(decision = "Hittt" ∨ decision = "Stand")) ∧
    (∀ name : List Nat, (pack_name name).length = 32) ∧
    (∀ name : List Nat, 32 ≤ name.length → pack_name name = name.take 32) ∧
    (∀ name : List Nat, name.length ≤ 32 →
        pack_name name = name ++ List.replicate (32 - name.length) 0) := by
  refine ⟨?_, ?_, ?_, ?_, ?_⟩
  · intro rounds client_name
    unfold pack_request
    split <;> simp_all
  · intro decision
    unfold pack_client_payload
    split <;> simp_all
  · intro name
    simp only [pack_name, NAME_LEN, List.length_append, List.length_take,
      List.length_replicate]
    omega
  · intro name hn
    simp only [pack_name, NAME_LEN, List.length_take]
    rw [Nat.min_eq_left hn]
    simp
  · intro name hn
    simp only [pack_name, NAME_LEN, List.length_take]
    rw [List.take_of_length_le hn, Nat.min_eq_right hn]

lemma pack_name_length (name : List Nat) : (pack_name name).length = NAME_LEN := by
  simp only [pack_name, NAME_LEN, List.length_append, List.length_take,
    List.length_replicate]
  omega

lemma takeWhile_append_replicate (l : List Nat) (k : Nat) (h : ∀ b ∈ l, b ≠ 0) :
    (l ++ List.replicate k 0).takeWhile (fun b => b ≠ 0) = l := by
  induction l with
  | nil =>
      cases k with
      | zero => simp
      | succ k => simp [List.replicate_succ, List.takeWhile_cons]
  | cons a l ih =>
      have ha : a ≠ 0 := h a (List.mem_cons_self a l)
      have ih2 := ih (fun b hb => h b (List.mem_cons_of_mem a hb))
      simp only [List.cons_append, List.takeWhile_cons]
      rw [if_pos (by simp [ha])]
      rw [ih2]

lemma unpack_pack_name (name : List Nat) (hlen : name.length ≤ NAME_LEN)
    (hz : ∀ b ∈ name, b ≠ 0) : unpack_name (pack_name name) = name := by
  have hpack : pack_name name = name ++ List.replicate (NAME_LEN - name.length) 0 := by
    simp only [pack_name]
    rw [List.take_of_length_le hlen]
  rw [hpack, unpack_name]
  exact takeWhile_append_replicate name _ hz

/-- C1: for all valid field values of each message kind, decoding the
encoding returns the magic marker, the correct type tag, and the input
field values unchanged (names of at most 32 bytes without zero bytes,
ports below 2^16, round counts 0–255, the two legal decision tokens, and
in-range result/rank/suit fields). -/
theorem roundtrip_spec :
    (∀ (tcp_port : Nat) (server_name : List Nat),
        tcp_port < 2 ^ 16 → server_name.length ≤ NAME_LEN →
        (∀ b ∈ server_name, b ≠ 0) →
        ∃ w, pack_offer tcp_port server_name = .ok w ∧
          unpack_offer w = some (MAGIC_COOKIE, MTYPE_OFFER, tcp_port, server_name)) ∧
    (∀ (rounds : Int) (client_name : List Nat),
        0 ≤ rounds → rounds ≤ 255 → client_name.length ≤ NAME_LEN →
        (∀ b ∈ client_name, b ≠ 0) →
        ∃ w, pack_request rounds client_name = .ok w ∧
          unpack_request w =
            some (MAGIC_COOKIE, MTYPE_REQUEST, rounds.toNat, client_name)) ∧
    (∀ decision : String, decision = "Hittt" ∨ decision = "Stand" →
        ∃ w, pack_client_payload decision = .ok w ∧
          unpack_client_payload w = some (MAGIC_COOKIE, MTYPE_PAYLOAD, decision)) ∧
    (∀ g r s : Nat, g < 256 → r < 2 ^ 16 → s < 256 →
        ∃ w, pack_server_payload g r s = .ok w ∧
          unpack_server_payload w = some (MAGIC_COOKIE, MTYPE_PAYLOAD, g, r, s)) := by
  refine ⟨?_, ?_, ?_, ?_⟩
  · intro tcp_port server_name hp hlen hz
    refine ⟨u32be MAGIC_COOKIE ++ [MTYPE_OFFER] ++ u16be tcp_port ++
      pack_name server_name, ?_, ?_⟩
    · unfold pack_offer
      rw [if_pos hp]
    · have hw : u32be MAGIC_COOKIE = [171, 205, 220, 186] := by decide
      have hcookie : rdBE [171, 205, 220, 186] = MAGIC_COOKIE := by decide
      have hport : rdBE [tcp_port / 2 ^ 8 % 256, tcp_port % 256] = tcp_port := by
        simp only [rdBE, List.foldl_cons, List.foldl_nil]
        omega
      rw [hw]
      simp only [u16be, MTYPE_OFFER, List.cons_append, List.nil_append]
      simp only [unpack_offer, pack_name_length, NAME_LEN, if_pos]
      rw [unpack_pack_name server_name hlen hz, hcookie, hport]
  · intro rounds client_name h0 h255 hlen hz
    refine ⟨u32be MAGIC_COOKIE ++ [MTYPE_REQUEST] ++ [rounds.toNat] ++
      pack_name client_name, ?_, ?_⟩
    · unfold pack_request
      rw [if_pos ⟨h0, h255⟩]
    · have hw : u32be MAGIC_COOKIE = [171, 205, 220, 186] := by decide
      have hcookie : rdBE [171, 205, 220, 186] = MAGIC_COOKIE := by decide
      rw [hw]
      simp only [MTYPE_REQUEST, List.cons_append, List.nil_append]
      simp only [unpack_request, pack_name_length, NAME_LEN, if_pos]
      rw [unpack_pack_name client_name hlen hz, hcookie]
  · intro decision hd
    rcases hd with rfl | rfl
    · exact ⟨u32be MAGIC_COOKIE ++ [MTYPE_PAYLOAD] ++ pack5s (asciiEncode "Hittt"),
        by unfold pack_client_payload; rw [if_pos (Or.inl rfl)], by decide⟩
    · exact ⟨u32be MAGIC_COOKIE ++ [MTYPE_PAYLOAD] ++ pack5s (asciiEncode "Stand"),
        by unfold pack_client_payload; rw [if_pos (Or.inr rfl)], by decide⟩
  · intro g r s hg hr hs
    refine ⟨u32be MAGIC_COOKIE ++ [MTYPE_PAYLOAD] ++ [g] ++ u16be r ++ [s], ?_, ?_⟩
    · unfold pack_server_payload
      rw [if_pos ⟨hg, hr, hs⟩]
    · have hw : u32be MAGIC_COOKIE = [171, 205, 220, 186] := by decide
      have hcookie : rdBE [171, 205, 220, 186] = MAGIC_COOKIE := by decide
      have hrank : rdBE [r / 2 ^ 8 % 256, r % 256] = r := by
        simp only [rdBE, List.foldl_cons, List.foldl_nil]
        omega
      rw [hw]
      simp only [u16be, MTYPE_PAYLOAD, List.cons_append, List.nil_append]
      simp only [unpack_server_payload]
      rw [hcookie, hrank]

/-- C1 witness: concrete round trips for each of the four message
kinds. -/
theorem roundtrip_spec_witness :
    (∃ w, pack_offer 2005 [66, 111] = .ok w ∧
      unpack_offer w = some (MAGIC_COOKIE, MTYPE_OFFER, 2005, [66, 111])) ∧
    (∃ w, pack_request 3 [79, 70] = .ok w ∧
      unpack_request w = some (MAGIC_COOKIE, MTYPE_REQUEST, (3 : Int).toNat, [79, 70])) ∧
    (∃ w, pack_client_payload "Stand" = .ok w ∧
      unpack_client_payload w = some (MAGIC_COOKIE, MTYPE_PAYLOAD, "Stand")) ∧
    (∃ w, pack_server_payload 3 0 0 = .ok w ∧
      unpack_server_payload w = some (MAGIC_COOKIE, MTYPE_PAYLOAD, 3, 0, 0)) := by
  refine ⟨?_, ?_, ?_, ?_⟩
  · exact roundtrip_spec.1 2005 [66, 111] (by decide) (by decide) (by decide)
  · exact roundtrip_spec.2.1 3 [79, 70] (by decide) (by decide) (by decide) (by decide)
  · exact roundtrip_spec.2.2.1 "Stand" (Or.inr rfl)
  · exact roundtrip_spec.2.2.2 3 0 0 (by decide) (by decide) (by decide)

/-- C6 witness: round count 300 is rejected, a bad token is rejected,
and a 40-byte name is truncated to its first 32 bytes. -/
theorem encode_failure_spec_witness :
    pack_request 300 [] = .error .InvalidArgument ∧
    pack_client_payload "Hello" = .error .InvalidArgument ∧
    pack_name (List.replicate 40 7) = (List.replicate 40 7).take 32 ∧
    pack_name [1, 2] = [1, 2] ++ List.replicate 30 0 := by
  refine ⟨(encode_failure_spec.1 300 []).mpr (by decide), ?_, ?_, ?_⟩
  · exact (encode_failure_spec.2.1 "Hello").mpr (by decide)
  · exact encode_failure_spec.2.2.2.1 (List.replicate 40 7) (by simp)
  · simpa using encode_failure_spec.2.2.2.2 [1, 2] (by decide)

end Protocol

/-- C8: decoding a ClientDecision message never fails on the token
field: for every 10-byte input whose 5 payload bytes form a 5-byte
(ASCII) token, `unpack_client_payload` returns that raw decoded token
unchanged — whatever it is — and validation of which tokens are legal
happens in the caller (`player_turn` raises a protocol error there). -/
theorem decode_token_spec :
    (∀ (b0 b1 b2 b3 t : Nat) (payload : List Nat),
        payload.length = 5 → (∀ b ∈ payload, b < 128) →
        Protocol.unpack_client_payload (b0 :: b1 :: b2 :: b3 :: t :: payload) =
          some (Protocol.rdBE [b0, b1, b2, b3], t,
            String.mk (payload.map Char.ofNat))) ∧
    (∀ (deck player_hand : List Server.Card) (d : String) (ds : List String),
        Server.hand_total player_hand ≤ 21 → d ≠ "Hittt" → d ≠ "Stand" →
        Server.player_turn_loop deck player_hand (d :: ds) =
          .error .ProtocolError) := by
  constructor
  · intro b0 b1 b2 b3 t payload h5 h128
    simp only [Protocol.unpack_client_payload]
    rw [if_pos h5]
    have hdec : Protocol.asciiDecode payload =
        some (String.mk (payload.map Char.ofNat)) := by
      simp only [Protocol.asciiDecode]
      rw [if_pos]
      simp only [List.all_eq_true, decide_eq_true_eq]
      exact h128
    rw [hdec]
    rfl
  · intro deck player_hand d ds hle h1 h2
    rw [Server.player_turn_loop]
    rw [if_neg (by omega)]
    simp only [if_neg h1, if_neg h2]

/-- C8 witness: a well-formed 10-byte message carrying the illegal
5-byte ASCII token "Hello" decodes to that raw token, and the caller's
decision handling rejects an illegal token with a protocol error. -/
theorem decode_token_spec_witness :
    Protocol.unpack_client_payload [0, 0, 0, 0, 4, 72, 101, 108, 108, 111] =
      some (Protocol.rdBE [0, 0, 0, 0], 4,
        String.mk ([72, 101, 108, 108, 111].map Char.ofNat)) ∧
    Server.player_turn_loop [] [] ["Jump!"] = .error .ProtocolError := by
  constructor
  · exact decode_token_spec.1 0 0 0 0 4 [72, 101, 108, 108, 111]
      (by decide) (by decide)
  · exact decode_token_spec.2 [] [] "Jump!" [] (by decide) (by decide) (by decide)

/-- C10: the client's scoring pipeline agrees with the server's: for
every card sequence, summing the stored per-card `rank_value`s equals
the server's `hand_total`, so both sides agree on when a total exceeds
21. -/
theorem scoring_refinement_spec :
    ∀ cards : List (Nat × Nat),
      Client.hand_total (Client.player_ranks cards) = Server.hand_total cards ∧
      (21 < Client.hand_total (Client.player_ranks cards) ↔
        21 < Server.hand_total cards) := by
  intro cards
  have h : Client.hand_total (Client.player_ranks cards) = Server.hand_total cards := by
    rw [Server.hand_total_eq_sum]
    rfl
  exact ⟨h, by rw [h]⟩
